import Mathlib

/-!
Verification of the URL resolution core of the gutenberg scraper
(files `src/gutenberg2zim/urls.py` and `gutenberg/utils.py`).

The Python code is shallowly embedded: pathlib `PurePosixPath` values
become an explicit absolute flag plus segment list, Python exceptions
become `Option`/`Except` results, and the peewee `Url` table becomes a
list of relative path strings (the listing index).
-/

namespace Gutenberg

/-! ## Python string primitives -/

/-- Helper for Python substring search: the index (counted from `acc`) of
the first position in the haystack at which `pat` occurs as a contiguous
sublist, if any. -/
def findSubAux (pat : List Char) : List Char → Nat → Option Nat
  | [], acc => if pat = [] then some acc else none
  | c :: cs, acc =>
    if pat.isPrefixOf (c :: cs) then some acc else findSubAux pat cs (acc + 1)

/-- Python `s.find(pat)`: first index of the substring, `-1` when absent. -/
def strFind (s pat : String) : Int :=
  match findSubAux pat.toList s.toList 0 with
  | some i => (i : Int)
  | none => -1

/-- Python `pat in s` (substring containment on `str`). -/
def strContains (s pat : String) : Bool :=
  (findSubAux pat.toList s.toList 0).isSome

/-- Python `s.startswith(pat)`. -/
def strStarts (s pat : String) : Bool :=
  pat.toList.isPrefixOf s.toList

/-- Python `s[start:]` for a natural start index. -/
def pyDrop (s : String) (start : Nat) : String :=
  (s.toList.drop start).asString

/-- Python `s.strip()`: whitespace removed from both ends. -/
def pyStrip (s : String) : String :=
  ((s.toList.dropWhile Char.isWhitespace).reverse.dropWhile
    Char.isWhitespace).reverse.asString

/-- Python `lst[i]` with negative-index wrap-around; `none` models
`IndexError`. -/
def pyGet {α : Type} (l : List α) (i : Int) : Option α :=
  let j : Int := if i < 0 then (l.length : Int) + i else i
  if 0 ≤ j ∧ j < (l.length : Int) then l.get? j.toNat else none

/-- Helper for Python `list(set(xs))`: first-occurrence deduplication with
an accumulator of already seen elements. -/
def pySetAux {α : Type} [DecidableEq α] (seen : List α) : List α → List α
  | [] => []
  | a :: as => if a ∈ seen then pySetAux seen as else a :: pySetAux (a :: seen) as

/-- Python `list(set(xs))`. CPython's set iteration order is a fixed
per-process function of the inserted elements; it is modelled as
first-occurrence deduplication. -/
def pySet {α : Type} [DecidableEq α] (l : List α) : List α := pySetAux [] l

/-! ## A model of `pathlib.PurePosixPath` -/

/-- Splitting a component string at `'/'` characters. -/
def splitSlash : List Char → List (List Char)
  | [] => [[]]
  | c :: cs =>
    if c = '/' then [] :: splitSlash cs
    else
      match splitSlash cs with
      | [] => [[c]]
      | g :: gs => (c :: g) :: gs

/-- The path segments pathlib keeps from one string argument: split on
`'/'`, dropping empty components and single dots. -/
def pathSegsOf (s : String) : List String :=
  ((splitSlash s.toList).map List.asString).filter
    (fun seg => seg != "" && seg != ".")

/-- Rendering of a relative segment list: segments joined by `/`. -/
def pathStr : List String → String
  | [] => ""
  | [s] => s
  | s :: rest => s ++ "/" ++ pathStr rest

/-- A `pathlib.PurePosixPath` value: an absolute flag and the normalized
segments. (The POSIX double-slash root special case never arises for
these inputs and is not modelled.) -/
structure PurePath where
  absolute : Bool
  segs : List String
deriving DecidableEq

/-- `PurePosixPath(s)` for a single string argument. -/
def PurePath.ofString (s : String) : PurePath :=
  ⟨strStarts s "/", pathSegsOf s⟩

/-- `p / s`: an absolute right operand resets the path, otherwise its
segments are appended. -/
def PurePath.join (p : PurePath) (s : String) : PurePath :=
  if strStarts s "/" then PurePath.ofString s
  else ⟨p.absolute, p.segs ++ pathSegsOf s⟩

/-- `PurePosixPath(part_0, part_1, ...)`. -/
def mkPath (parts : List String) : PurePath :=
  parts.foldl PurePath.join ⟨false, []⟩

/-- `str(p)` for a `PurePosixPath`. -/
def PurePath.toStr (p : PurePath) : String :=
  if p.segs = [] then (if p.absolute then "/" else ".")
  else (if p.absolute then "/" else "") ++ pathStr p.segs

/-! ## The `.path` component of `urllib.parse.urlparse` -/

/-- The characters CPython's `urllib.parse` permits inside a scheme. -/
def schemeCharOk (c : Char) : Bool :=
  c.isAlphanum || c = '+' || c = '-' || c = '.'

def headIsAlpha : List Char → Bool
  | [] => false
  | c :: _ => c.isAlpha

/-- Scheme stripping of CPython `urlsplit`: when a `:` is preceded by a
well-formed scheme, everything through the `:` is removed. -/
def stripScheme (l : List Char) : List Char :=
  match findSubAux [':'] l 0 with
  | none => l
  | some i =>
    if i != 0 && headIsAlpha l && (l.take i).all schemeCharOk
    then l.drop (i + 1) else l

/-- Netloc stripping of CPython `urlsplit`: after a leading `//` the
netloc extends to the next `/`, `?` or `#`. -/
def dropNetloc (l : List Char) : List Char :=
  match l with
  | '/' :: '/' :: rest => rest.dropWhile (fun c => c != '/' && c != '?' && c != '#')
  | _ => l

/-- Everything before the first occurrence of `c`. -/
def takeUntilChar (l : List Char) (c : Char) : List Char :=
  l.takeWhile (fun d => d != c)

/-- The `.path` component of `urllib.parse.urlparse` on a `str` argument
(the params split at `;` is omitted: no input here contains `;`). -/
def urlparsePathStr (u : String) : String :=
  (takeUntilChar (takeUntilChar (dropNetloc (stripScheme u.toList)) '#') '?').asString

/-- A Python value flowing into `urlparse`: either a `str` or a pathlib
path object. `urllib.parse` accepts only `str` — its `_decode_args`
helper calls `.decode` on any other argument — so a path raises
`AttributeError`. -/
inductive PyObj where
  | pyStr (s : String)
  | pyPath (p : PurePath)
deriving DecidableEq

inductive PyErr where
  | attributeError
  | indexError
deriving DecidableEq

/-- `urllib.parse.urlparse(u).path`: defined on `str`, raising
`AttributeError` on a pathlib path object. -/
def pyUrlparsePath : PyObj → Except PyErr String
  | .pyStr s => .ok (urlparsePathStr s)
  | .pyPath _ => .error .attributeError

/-! ## UrlBuilder (urls.py lines 10-60) -/

def SERVER_NAME : String := "aleph_pglaf_org"

def BASE_ONE : String := "http://aleph.pglaf.org/"

def BASE_TWO : String := "http://aleph.pglaf.org/cache/epub/"

def BASE_THREE : String := "http://aleph.pglaf.org/etext"

/-- The sharded relative part built by `UrlBuilder.build` for `BASE_ONE`
(lines 41-45): ids above 10 give `Path(*list(str(id)[:-1])) / str(id)`,
ids up to 10 give `Path("0") / str(id)`. -/
def shardParts (bId : Nat) : List String :=
  if 10 < bId then
    (Nat.repr bId).toList.dropLast.map String.singleton ++ [Nat.repr bId]
  else ["0", Nat.repr bId]

/-- `UrlBuilder.build` with base `BASE_ONE` (line 46):
`Path(self.base) / base_url`. -/
def buildBaseOne (bId : Nat) : PurePath :=
  mkPath (BASE_ONE :: shardParts bId)

/-- `UrlBuilder.build` with base `BASE_TWO` (line 48):
`Path(self.base) / str(self.b_id)`. -/
def buildBaseTwo (bId : Nat) : PurePath :=
  (PurePath.ofString BASE_TWO).join (Nat.repr bId)

/-! `UrlBuilder.build` with base `BASE_THREE` (line 50) returns the base
string itself, not a path object; callers pass it to `Path(...)` later. -/

/-! ## Candidate generators (urls.py lines 124-224) -/

/-- One element of a `files[mime]` list: the dict
`{"name": ..., "id": ...}` built by `sort_by_mime_type` (line 94). -/
structure FileEntry where
  name : String
  id : Nat
deriving DecidableEq

/-- The keys of such a dict: `"name"` and `"id"`. Python's
`substring in s`, for a dict `s`, tests membership among the keys. -/
def dictKeys (_ : FileEntry) : List String := ["name", "id"]

def indexOfSubstringAux (substrings : List String) : List FileEntry → Nat → Int
  | [], _ => -1
  | s :: rest, i =>
    if substrings.any (fun sub => (dictKeys s).contains sub) then (i : Int)
    else indexOfSubstringAux substrings rest (i + 1)

/-- `index_of_substring` (lines 124-129). The iteration variable `s`
ranges over the file dicts, so `substring in s` is a dict-key membership
test, not a substring test on the file name. -/
def index_of_substring (lst : List FileEntry) (substrings : List String) : Int :=
  indexOfSubstringAux substrings lst 0

/-- `build_epub` (lines 132-150); `none` models the `IndexError` of
`files[0]` on an empty list. The `if not u.build()` guard (line 142) is
never taken: a pathlib path object is always truthy. -/
def build_epub : List FileEntry → Option (List PurePath)
  | [] => none
  | f0 :: _ =>
    let bId := Nat.repr f0.id
    let base := buildBaseTwo f0.id
    let name := "pg" ++ bId
    some [base.join (name ++ ".epub"),
          base.join (name ++ "-images.epub"),
          base.join (name ++ "-noimages.epub")]

/-- `build_pdf` (lines 153-181). The per-file loop (lines 170-173) uses
the `BASE_TWO` builder `u`; the `BASE_ONE` builder `u1` is used only for
`url_dash1`. -/
def build_pdf : List FileEntry → Option (List PurePath)
  | [] => none
  | f0 :: rest =>
    let files := f0 :: rest
    let bId := Nat.repr f0.id
    let base2 := buildBaseTwo f0.id
    let base1 := buildBaseOne f0.id
    let direct := (files.filter (fun f => !(strContains f.name "images"))).map
      (fun f => base2.join f.name)
    let urlDash1 := base1.join (bId ++ "-pdf.pdf")
    let urlDash := base2.join (bId ++ "-pdf.pdf")
    let urlNormal := base2.join (bId ++ ".pdf")
    let urlPg := base2.join ("pg" ++ bId ++ ".pdf")
    some (pySet (direct ++ [urlDash, urlNormal, urlPg, urlDash1]))

/-- The sixteen two-digit etext year labels `"90"`..`"99"`, `"00"`..`"05"`
(lines 214-217). -/
def etextNames : List String :=
  (List.range' 90 10 ++ List.range 6).map
    (fun i => if i < 10 then "0" ++ Nat.repr i else Nat.repr i)

/-- `build_html` (lines 184-224); `none` models the `IndexError` of
`files[0]` on an empty list. `file_index` is always `-1` here (see
`index_of_substring`), so `files[file_index]` is the last file dict. -/
def build_html : List FileEntry → Option (List PurePath)
  | [] => none
  | f0 :: rest =>
    let files := f0 :: rest
    let bId := Nat.repr f0.id
    let fileNames := files.map (fun f => f.name)
    let base1 := buildBaseOne f0.id
    let direct :=
      if !(fileNames.contains "-h.html") && fileNames.contains "-h.zip"
      then files.map (fun f => base1.join f.name) else []
    let urlZip := base1.join (bId ++ "-h.zip")
    let urlHtml := base1.join (bId ++ "-h.html")
    let urlHtm := base1.join (bId ++ "-h.htm")
    let htmlUtf8 := (buildBaseTwo f0.id).join ("pg" ++ bId ++ ".html.utf8")
    let fileIndex := index_of_substring files ["html", "htm"]
    match pyGet files fileIndex with
    | none => none
    | some fi =>
      let etextUrls := etextNames.map (fun y => mkPath [BASE_THREE, y, fi.name])
      some (pySet (direct ++ [urlZip, urlHtm, urlHtml, htmlUtf8] ++ etextUrls))

/-! ## The resolver `build_urls` (urls.py lines 98-121) -/

/-- The dict `files` restricted to the keys `build_urls` maps over; via
`get_urls` these are the only possible keys (the `FORMAT_MATRIX`
mimetypes). A `none` field models an absent key. -/
structure FilesMap where
  epub : Option (List FileEntry)
  pdf : Option (List FileEntry)
  html : Option (List FileEntry)
deriving DecidableEq

/-- The mutated dict returned by `build_urls`. -/
structure UrlsMap where
  epub : Option (List PurePath)
  pdf : Option (List PurePath)
  html : Option (List PurePath)
deriving DecidableEq

/-- A generator call `mapping[i](files[i])`; the Python `IndexError` of an
empty argument list surfaces as an error. -/
def runGen (g : List FileEntry → Option (List PurePath))
    (fs : List FileEntry) : Except PyErr (List PurePath) :=
  match g fs with
  | none => .error .indexError
  | some l => .ok l

/-- The list comprehension of lines 108-112: keep a candidate `u` when the
`Url` table (the listing index `idx`) holds `urlparse(u).path[1:]`. Every
candidate is a pathlib path object, so `urlparse` raises on the first
element. -/
def filtre (idx : List String) : List PurePath → Except PyErr (List PurePath)
  | [] => .ok []
  | u :: us => do
    let p ← pyUrlparsePath (.pyPath u)
    let rest ← filtre idx us
    pure (if (p.drop 1) ∈ idx then u :: rest else rest)

/-- One iteration of the loop of lines 105-119 for a single format key. -/
def buildUrlsStep (g : List FileEntry → Option (List PurePath))
    (idx : List String) :
    Option (List FileEntry) → Except PyErr (Option (List PurePath))
  | none => pure none
  | some fs => do
    let cs ← runGen g fs
    let ks ← filtre idx cs
    pure (some ks)

/-- `build_urls` (lines 98-121): map each present format key through its
generator, then keep only candidates confirmed by the `Url` table. The
mapping iterates `epub`, `pdf`, `html` in dict-literal order. -/
def build_urls (files : FilesMap) (idx : List String) : Except PyErr UrlsMap := do
  let e ← buildUrlsStep build_epub idx files.epub
  let p ← buildUrlsStep build_pdf idx files.pdf
  let h ← buildUrlsStep build_html idx files.html
  pure ⟨e, p, h⟩

/-! ## Listing ingestion `setup_urls` (urls.py lines 227-288) -/

/-- The value of `start_rel_path_idx` after the search loop of lines
247-251: the find result of the first line containing `"GUTINDEX"`,
otherwise the last line's find result (`-1`); `none` when there are no
lines at all, in which case the variable is unbound and line 253 raises
`NameError`. -/
def markerIdx : List String → Option Int
  | [] => none
  | [l] => some (strFind l "GUTINDEX")
  | l :: rest =>
    if 0 ≤ strFind l "GUTINDEX" then some (strFind l "GUTINDEX")
    else markerIdx rest

inductive IngestErr where
  | nameError
  | valueError (msg : String)
deriving DecidableEq

/-- The per-line ingestion loop of lines 266-284: directory lines (leading
`d`) are skipped, lines containing `/old/` are skipped, lines matching no
scoped book id are skipped when a selection is given, and the surviving
lines are stripped to `line[start:]` and added to the `Url` table. -/
def ingestLines (books : List Nat) (start : Nat) (lines : List String) : List String :=
  lines.filterMap (fun line =>
    if strStarts line "d" then none
    else if strContains line "/old/" then none
    else if !books.isEmpty &&
        !(books.any (fun b => strContains line ("/" ++ Nat.repr b ++ "/")))
    then none
    else some (pyStrip (pyDrop line start)))

/-- `setup_urls` (lines 244-288), the ingestion stage; the rsync download
and its cache handling (lines 228-242) are I/O outside this core. The
returned list is the sequence of rows added to the `Url` table, which
starts empty (line 257 clears it before the loop). -/
def setup_urls (lines : List String) (books : List Nat) :
    Except IngestErr (List String) :=
  match markerIdx lines with
  | none => .error .nameError
  | some i =>
    if i = -1 then
      .error (.valueError "Unable to find relative path start in urls file")
    else .ok (ingestLines books i.toNat lines)

/-! ## Exclusion entries (gutenberg/utils.py lines 22-31) -/

/-- `FORMAT_MATRIX` (gutenberg/utils.py lines 22-26). -/
def FORMAT_MATRIX : List (String × String) :=
  [("epub", "application/epub+zip"), ("pdf", "application/pdf"),
   ("html", "text/html")]

/-- `BAD_BOOKS_FORMATS` (gutenberg/utils.py lines 28-31). -/
def BAD_BOOKS_FORMATS : List (Nat × List String) :=
  [(39765, ["pdf"]), (40194, ["pdf"])]

/-- The formats excluded for a given book id. -/
def badFormatsFor (bookId : Nat) : List String :=
  match BAD_BOOKS_FORMATS.lookup bookId with
  | some fs => fs
  | none => []

/-- Modelled from the spec: the Resolver step applying the static
exclusion list. The repository code consulting `BAD_BOOKS_FORMATS` (the
download pipeline) is not under `src/`; only the deny-list itself, in
gutenberg/utils.py, is. Spec section 4.3 requires the Resolver to "drop
any (book.id, format) pair present in ExclusionEntries entirely (even if
candidates were confirmed)"; `confirmed` is the per-format mapping of
index-confirmed urls. -/
def resolveExclusions (bookId : Nat) (confirmed : String → List String) :
    String → List String :=
  fun fmt => if fmt ∈ badFormatsFor bookId then [] else confirmed fmt

/-! ## Basic lemmas about the embedding -/

theorem digitChar_isDigit {m : Nat} (h : m < 10) : (Nat.digitChar m).isDigit = true := by
  interval_cases m <;> rfl

theorem toDigitsCore_digits :
    ∀ (fuel n : Nat) (ds : List Char), (∀ c ∈ ds, c.isDigit = true) →
      ∀ c ∈ Nat.toDigitsCore 10 fuel n ds, c.isDigit = true := by
  intro fuel
  induction fuel with
  | zero => intro n ds hds c hc; exact hds c hc
  | succ fuel ih =>
    intro n ds hds c hc
    simp only [Nat.toDigitsCore] at hc
    have hds' : ∀ c ∈ Nat.digitChar (n % 10) :: ds, c.isDigit = true := by
      intro c' hc'
      rcases List.mem_cons.mp hc' with h1 | h1
      · subst h1; exact digitChar_isDigit (Nat.mod_lt _ (by decide))
      · exact hds c' h1
    split at hc
    · exact hds' c hc
    · exact ih _ _ hds' c hc

theorem repr_toList_digits (n : Nat) : ∀ c ∈ (Nat.repr n).toList, c.isDigit = true := by
  intro c hc
  have he : (Nat.repr n).toList = Nat.toDigitsCore 10 (n + 1) n [] := rfl
  rw [he] at hc
  exact toDigitsCore_digits (n + 1) n []
    (by intro c' hc'; exact absurd hc' (List.not_mem_nil c')) c hc

theorem toDigitsCore_ne_nil :
    ∀ (fuel n : Nat) (ds : List Char), ds ≠ [] → Nat.toDigitsCore 10 fuel n ds ≠ [] := by
  intro fuel
  induction fuel with
  | zero => intro n ds h; exact h
  | succ fuel ih =>
    intro n ds _
    simp only [Nat.toDigitsCore]
    split
    · exact List.cons_ne_nil _ _
    · exact ih _ _ (List.cons_ne_nil _ _)

theorem repr_toList_ne_nil (n : Nat) : (Nat.repr n).toList ≠ [] := by
  have he : (Nat.repr n).toList = Nat.toDigitsCore 10 (n + 1) n [] := rfl
  rw [he]
  simp only [Nat.toDigitsCore]
  split
  · exact List.cons_ne_nil _ _
  · exact toDigitsCore_ne_nil _ _ _ (List.cons_ne_nil _ _)

theorem isDigit_ne_slash {c : Char} (h : c.isDigit = true) : c ≠ '/' := by
  intro e
  subst e
  exact absurd h (by decide)

theorem repr_no_slash (n : Nat) : ∀ c ∈ (Nat.repr n).toList, c ≠ '/' :=
  fun c hc => isDigit_ne_slash (repr_toList_digits n c hc)

theorem toList_append (a b : String) : (a ++ b).toList = a.toList ++ b.toList :=
  String.data_append a b

theorem strStarts_slash_of_head {s : String} {c : Char} {r : List Char}
    (h : s.toList = c :: r) (hc : c ≠ '/') : strStarts s "/" = false := by
  apply Bool.eq_false_iff.mpr
  intro htrue
  unfold strStarts at htrue
  rw [h] at htrue
  rw [List.isPrefixOf_iff_prefix] at htrue
  have : '/' = c ∧ ([] : List Char) <+: r := List.cons_prefix_cons.mp htrue
  exact hc this.1.symm

theorem no_slash_strStarts {s : String} (hne : s.toList ≠ [])
    (h : ∀ c ∈ s.toList, c ≠ '/') : strStarts s "/" = false := by
  cases hl : s.toList with
  | nil => exact absurd hl hne
  | cons c r =>
    exact strStarts_slash_of_head hl (h c (by rw [hl]; exact List.mem_cons_self c r))

theorem repr_strStarts_slash (n : Nat) : strStarts (Nat.repr n) "/" = false :=
  no_slash_strStarts (repr_toList_ne_nil n) (repr_no_slash n)

theorem splitSlash_no_slash : ∀ (l : List Char), (∀ c ∈ l, c ≠ '/') → splitSlash l = [l] := by
  intro l
  induction l with
  | nil => intro _; rfl
  | cons c cs ih =>
    intro h
    have hc : c ≠ '/' := h c (List.mem_cons_self c cs)
    have hcs := ih (fun c' hc' => h c' (List.mem_cons_of_mem c hc'))
    simp only [splitSlash]
    rw [if_neg hc, hcs]

theorem pathSegsOf_single {s : String} (hne : s.toList ≠ [])
    (hslash : ∀ c ∈ s.toList, c ≠ '/') (hdot : s.toList ≠ ['.']) :
    pathSegsOf s = [s] := by
  unfold pathSegsOf
  rw [splitSlash_no_slash s.toList hslash]
  have h1 : s.data.asString = s := rfl
  have h2 : (s != "") = true := by
    rw [bne_iff_ne]
    intro e
    rw [e] at hne
    exact hne rfl
  have h3 : (s != ".") = true := by
    rw [bne_iff_ne]
    intro e
    rw [e] at hdot
    exact hdot rfl
  simp [List.filter, h1, h2, h3]

theorem repr_segs (n : Nat) : pathSegsOf (Nat.repr n) = [Nat.repr n] := by
  apply pathSegsOf_single (repr_toList_ne_nil n) (repr_no_slash n)
  intro e
  have hd : ('.' : Char).isDigit = true :=
    repr_toList_digits n '.' (by rw [e]; exact List.mem_cons_self _ _)
  exact absurd hd (by decide)

theorem no_slash_append {a b : String} (ha : ∀ c ∈ a.toList, c ≠ '/')
    (hb : ∀ c ∈ b.toList, c ≠ '/') : ∀ c ∈ (a ++ b).toList, c ≠ '/' := by
  intro c hc
  rw [toList_append] at hc
  rcases List.mem_append.mp hc with h | h
  · exact ha c h
  · exact hb c h

theorem no_slash_of_all {s : String} (h : s.toList.all (fun c => c != '/') = true) :
    ∀ c ∈ s.toList, c ≠ '/' := by
  intro c hc
  exact bne_iff_ne.mp (List.all_eq_true.mp h c hc)

/-- A segment string of the shape `a ++ str(n) ++ b` with slash-free
constant parts survives pathlib parsing as a single segment. -/
theorem pathSegsOf_mid_repr (a : String) (n : Nat) (b : String)
    (ha : ∀ c ∈ a.toList, c ≠ '/') (hb : ∀ c ∈ b.toList, c ≠ '/') :
    pathSegsOf (a ++ Nat.repr n ++ b) = [a ++ Nat.repr n ++ b] := by
  have htl : (a ++ Nat.repr n ++ b).toList =
      a.toList ++ (Nat.repr n).toList ++ b.toList := by
    rw [toList_append, toList_append]
  apply pathSegsOf_single
  · rw [htl]
    intro e
    rcases List.append_eq_nil.mp e with ⟨e1, _⟩
    rcases List.append_eq_nil.mp e1 with ⟨_, e3⟩
    exact repr_toList_ne_nil n e3
  · rw [htl]
    intro c hc
    rcases List.mem_append.mp hc with h | h
    · rcases List.mem_append.mp h with h' | h'
      · exact ha c h'
      · exact repr_no_slash n c h'
    · exact hb c h
  · rw [htl]
    intro e
    cases hl : (Nat.repr n).toList with
    | nil => exact repr_toList_ne_nil n hl
    | cons c cs =>
      have hm : c ∈ a.toList ++ (Nat.repr n).toList ++ b.toList :=
        List.mem_append.mpr (Or.inl (List.mem_append.mpr (Or.inr
          (by rw [hl]; exact List.mem_cons_self _ _))))
      rw [e] at hm
      have hcdot : c = '.' := by simpa using hm
      have hd := repr_toList_digits n c (by rw [hl]; exact List.mem_cons_self _ _)
      rw [hcdot] at hd
      exact absurd hd (by decide)

theorem join_segs {p : PurePath} {s : String} (hs : strStarts s "/" = false) :
    p.join s = ⟨p.absolute, p.segs ++ pathSegsOf s⟩ := by
  unfold PurePath.join
  rw [hs]
  simp

/-! ## Membership in the `list(set(...))` model -/

theorem mem_pySetAux_iff {α : Type} [DecidableEq α] (x : α) :
    ∀ (l seen : List α), x ∈ pySetAux seen l ↔ (x ∈ l ∧ x ∉ seen) := by
  intro l
  induction l with
  | nil => intro seen; simp [pySetAux]
  | cons a as ih =>
    intro seen
    simp only [pySetAux]
    by_cases h : a ∈ seen
    · rw [if_pos h, ih]
      constructor
      · rintro ⟨h1, h2⟩
        exact ⟨List.mem_cons_of_mem a h1, h2⟩
      · rintro ⟨h1, h2⟩
        rcases List.mem_cons.mp h1 with he | hm
        · subst he; exact absurd h h2
        · exact ⟨hm, h2⟩
    · rw [if_neg h]
      constructor
      · intro hx
        rcases List.mem_cons.mp hx with he | hm
        · subst he; exact ⟨List.mem_cons_self _ _, h⟩
        · have := (ih (a :: seen)).mp hm
          refine ⟨List.mem_cons_of_mem a this.1, fun hs => this.2 (List.mem_cons_of_mem a hs)⟩
      · rintro ⟨h1, h2⟩
        rcases List.mem_cons.mp h1 with he | hm
        · subst he; exact List.mem_cons_self _ _
        · by_cases hxa : x = a
          · subst hxa; exact List.mem_cons_self _ _
          · exact List.mem_cons_of_mem a ((ih (a :: seen)).mpr
              ⟨hm, fun hs => (List.mem_cons.mp hs).elim hxa h2⟩)

theorem mem_pySet_iff {α : Type} [DecidableEq α] (x : α) (l : List α) :
    x ∈ pySet l ↔ x ∈ l := by
  unfold pySet
  rw [mem_pySetAux_iff]
  simp

/-! ## The common base prefix of generated candidates -/

/-- A relative path whose segments start with the collapsed server base
(pathlib collapses the `//` of the configured base urls into one `/`). -/
def goodBase (p : PurePath) : Prop :=
  p.absolute = false ∧ ∃ t, p.segs = "http:" :: "aleph.pglaf.org" :: t

theorem goodBase_join {p : PurePath} {s : String} (hp : goodBase p)
    (hs : strStarts s "/" = false) : goodBase (p.join s) := by
  obtain ⟨ha, t, ht⟩ := hp
  rw [join_segs hs]
  exact ⟨ha, t ++ pathSegsOf s, by rw [ht]; simp⟩

theorem goodBase_foldl {parts : List String} :
    ∀ {p : PurePath}, goodBase p → (∀ s ∈ parts, strStarts s "/" = false) →
      goodBase (parts.foldl PurePath.join p) := by
  induction parts with
  | nil => intro p hp _; exact hp
  | cons s rest ih =>
    intro p hp h
    rw [List.foldl_cons]
    exact ih (goodBase_join hp (h s (List.mem_cons_self s rest)))
      (fun s' hs' => h s' (List.mem_cons_of_mem s hs'))

theorem goodBase_toStr {p : PurePath} (hp : goodBase p) :
    strStarts p.toStr "http:/aleph.pglaf.org" = true ∧
    strStarts p.toStr "http://" = false := by
  obtain ⟨ha, t, ht⟩ := hp
  have hne : p.segs ≠ [] := by rw [ht]; exact List.cons_ne_nil _ _
  have htoStr : p.toStr = pathStr p.segs := by
    unfold PurePath.toStr
    rw [if_neg hne, ha]
    simp
  cases t with
  | nil =>
    rw [htoStr, ht]
    exact ⟨rfl, rfl⟩
  | cons x xs =>
    rw [htoStr, ht]
    have he : pathStr ("http:" :: "aleph.pglaf.org" :: x :: xs) =
        "http:" ++ "/" ++ ("aleph.pglaf.org" ++ "/" ++ pathStr (x :: xs)) := rfl
    rw [he]
    exact ⟨rfl, rfl⟩

theorem goodBase_base_two : goodBase (PurePath.ofString BASE_TWO) :=
  ⟨rfl, ["cache", "epub"], rfl⟩

theorem goodBase_buildBaseTwo (n : Nat) : goodBase (buildBaseTwo n) :=
  goodBase_join goodBase_base_two (repr_strStarts_slash n)

theorem shardParts_no_slash (n : Nat) : ∀ s ∈ shardParts n, strStarts s "/" = false := by
  intro s hs
  unfold shardParts at hs
  split at hs
  · rcases List.mem_append.mp hs with h | h
    · rcases List.mem_map.mp h with ⟨c, hc, he⟩
      subst he
      have hcd : c.isDigit = true :=
        repr_toList_digits n c (List.dropLast_subset _ hc)
      exact strStarts_slash_of_head rfl (isDigit_ne_slash hcd)
    · have he : s = Nat.repr n := by simpa using h
      subst he
      exact repr_strStarts_slash n
  · rcases List.mem_cons.mp hs with h | h
    · subst h; rfl
    · have he : s = Nat.repr n := by simpa using h
      subst he
      exact repr_strStarts_slash n

theorem goodBase_buildBaseOne (n : Nat) : goodBase (buildBaseOne n) := by
  unfold buildBaseOne mkPath
  rw [List.foldl_cons]
  exact goodBase_foldl ⟨rfl, [], rfl⟩ (shardParts_no_slash n)

/-! ## C4: the sharded path construction -/

/-- C4. For every book id above 10 the sharded relative path consists of
each digit of `str(n)` except the last as individual single-character
segments (`len(str(n)) - 1` of them) followed by the full id as the final
segment; for every id up to 10 it is the fixed `0` shard followed by the
id. -/
theorem sharded_path_shape (n : Nat) :
    (10 < n →
      (shardParts n).dropLast = (Nat.repr n).toList.dropLast.map String.singleton ∧
      (shardParts n).dropLast.length = (Nat.repr n).length - 1 ∧
      (shardParts n).getLast? = some (Nat.repr n) ∧
      ∀ s ∈ (shardParts n).dropLast, s.length = 1) ∧
    (n ≤ 10 → shardParts n = ["0", Nat.repr n]) := by
  constructor
  · intro h
    unfold shardParts
    rw [if_pos h]
    refine ⟨List.dropLast_concat, ?_, List.getLast?_concat _, ?_⟩
    · rw [List.dropLast_concat, List.length_map, List.length_dropLast]
      rfl
    · rw [List.dropLast_concat]
      intro s hs
      rcases List.mem_map.mp hs with ⟨c, _, he⟩
      subst he
      rfl
  · intro h
    unfold shardParts
    rw [if_neg (by omega)]

/-- Witness for `sharded_path_shape` at the claim's example id 10023 and
at id 7. -/
theorem sharded_path_shape_witness :
    ((10 : Nat) < 10023 ∧ (shardParts 10023).getLast? = some "10023") ∧
    ((7 : Nat) ≤ 10 ∧ shardParts 7 = ["0", "7"]) ∧
    shardParts 10023 = ["1", "0", "0", "2", "10023"] :=
  ⟨⟨by decide, ((sharded_path_shape 10023).1 (by decide)).2.2.1⟩,
   ⟨by decide, (sharded_path_shape 7).2 (by decide)⟩,
   by decide⟩

/-! ## C5: the epub candidates -/

theorem pg_strStarts_slash (a b : String) : strStarts ("pg" ++ a ++ b) "/" = false :=
  strStarts_slash_of_head rfl (by decide)

/-- C5 counterexample: at book id 10023 the epub candidates live directly
under `cache/epub/10023`, with no sharded `1/0/0/2` directory chain, so
the cache base is not laid out with the numeric-sharded convention the
claim describes. -/
theorem build_epub_not_sharded_at_10023 :
    ((build_epub [⟨"pg10023.epub", 10023⟩]).getD []).map PurePath.toStr =
      ["http:/aleph.pglaf.org/cache/epub/10023/pg10023.epub",
       "http:/aleph.pglaf.org/cache/epub/10023/pg10023-images.epub",
       "http:/aleph.pglaf.org/cache/epub/10023/pg10023-noimages.epub"] ∧
    ((build_epub [⟨"pg10023.epub", 10023⟩]).getD []).all
      (fun u => !(strContains u.toStr "1/0/0/2")) = true := by
  constructor
  · rfl
  · decide

/-- C5 amended: for every book, `build_epub` produces exactly three
candidates under the cache mirror base with the full id as a single,
unsharded directory segment: the `pg{id}.epub` base filename and its
`-images` / `-noimages` variants. -/
theorem build_epub_three_candidates (f0 : FileEntry) (rest : List FileEntry) :
    build_epub (f0 :: rest) =
      some [⟨false, ["http:", "aleph.pglaf.org", "cache", "epub", Nat.repr f0.id,
                     "pg" ++ Nat.repr f0.id ++ ".epub"]⟩,
            ⟨false, ["http:", "aleph.pglaf.org", "cache", "epub", Nat.repr f0.id,
                     "pg" ++ Nat.repr f0.id ++ "-images.epub"]⟩,
            ⟨false, ["http:", "aleph.pglaf.org", "cache", "epub", Nat.repr f0.id,
                     "pg" ++ Nat.repr f0.id ++ "-noimages.epub"]⟩] := by
  have hbase : buildBaseTwo f0.id =
      ⟨false, ["http:", "aleph.pglaf.org", "cache", "epub", Nat.repr f0.id]⟩ := by
    unfold buildBaseTwo
    rw [join_segs (repr_strStarts_slash f0.id), repr_segs]
    rfl
  show some [(buildBaseTwo f0.id).join ("pg" ++ Nat.repr f0.id ++ ".epub"),
             (buildBaseTwo f0.id).join ("pg" ++ Nat.repr f0.id ++ "-images.epub"),
             (buildBaseTwo f0.id).join ("pg" ++ Nat.repr f0.id ++ "-noimages.epub")] = _
  rw [join_segs (pg_strStarts_slash _ _), join_segs (pg_strStarts_slash _ _),
      join_segs (pg_strStarts_slash _ _), hbase]
  rw [pathSegsOf_mid_repr "pg" f0.id ".epub" (no_slash_of_all (by decide))
        (no_slash_of_all (by decide)),
      pathSegsOf_mid_repr "pg" f0.id "-images.epub" (no_slash_of_all (by decide))
        (no_slash_of_all (by decide)),
      pathSegsOf_mid_repr "pg" f0.id "-noimages.epub" (no_slash_of_all (by decide))
        (no_slash_of_all (by decide))]
  rfl

/-! ## C1: the index filter of `build_urls` -/

theorem filtre_cons_error (idx : List String) (u : PurePath) (us : List PurePath) :
    filtre idx (u :: us) = .error .attributeError := rfl

/-- C1. The membership filter of `build_urls` never completes: every
candidate is a pathlib path object and `urllib.parse.urlparse` accepts
only `str`, so the resolver raises `AttributeError` on the first
candidate of any present format — here a book with one declared epub
whose candidate path is even present in the listing index — instead of
returning the index-confirmed mapping. -/
theorem build_urls_attribute_error :
    build_urls ⟨some [⟨"pg10023.epub", 10023⟩], none, none⟩
      ["aleph.pglaf.org/cache/epub/10023/pg10023.epub"] =
      .error .attributeError := rfl

/-! ## C9: determinism of the resolver -/

/-- C9. The resolver is deterministic: two listing indexes with the same
membership produce identical `build_urls` output (order included) on
every input mapping. The embedding is a pure function of the index and
the candidate lists, and the index only enters through the membership
test of `filtre`. -/
theorem build_urls_deterministic (idx1 idx2 : List String)
    (h : ∀ q : String, q ∈ idx1 ↔ q ∈ idx2) (files : FilesMap) :
    build_urls files idx1 = build_urls files idx2 := by
  have hf : ∀ l : List PurePath, filtre idx1 l = filtre idx2 l := by
    intro l
    cases l with
    | nil => rfl
    | cons u us => rfl
  have hs : ∀ g fs, buildUrlsStep g idx1 fs = buildUrlsStep g idx2 fs := by
    intro g fs
    unfold buildUrlsStep
    cases fs with
    | none => rfl
    | some fs => simp only [hf]
  unfold build_urls
  rw [hs build_epub files.epub, hs build_pdf files.pdf, hs build_html files.html]

/-- Witness for `build_urls_deterministic`: two membership-equal indexes
in different list representation, same output. -/
theorem build_urls_deterministic_witness :
    build_urls ⟨some [⟨"pg9.epub", 9⟩], none, none⟩ ["a", "b"] =
      build_urls ⟨some [⟨"pg9.epub", 9⟩], none, none⟩ ["b", "a", "a"] :=
  build_urls_deterministic ["a", "b"] ["b", "a", "a"]
    (fun q => by simp [List.mem_cons]; tauto)
    ⟨some [⟨"pg9.epub", 9⟩], none, none⟩

/-! ## C2: the exclusion invariant -/

/-- C2. For every (book id, format) pair of the static deny-list
`BAD_BOOKS_FORMATS`, the Resolver's exclusion step returns the empty
list for that format, whatever confirmed candidate mapping the listing
index produced. -/
theorem exclusion_invariant (bookId : Nat) (fmt : String)
    (confirmed : String → List String) (h : fmt ∈ badFormatsFor bookId) :
    resolveExclusions bookId confirmed fmt = [] := by
  unfold resolveExclusions
  rw [if_pos h]

/-- Witness: book 39765's pdf format is deny-listed and resolves empty
even though the confirmed candidate mapping is nonempty. -/
theorem exclusion_invariant_witness :
    "pdf" ∈ badFormatsFor 39765 ∧
    resolveExclusions 39765
      (fun _ => ["http:/aleph.pglaf.org/cache/epub/39765/pg39765.pdf"])
      "pdf" = [] :=
  ⟨by decide, exclusion_invariant 39765 "pdf" _ (by decide)⟩

/-! ## C7: what ingestion excludes -/

/-- C7 counterexample: a file line whose relative path begins with a
top-level `old/` directory does not contain the substring `/old/`, so
ingestion adds it to the index, which then reports a membership hit for a
path beginning `old/`. -/
theorem setup_urls_keeps_top_level_old :
    setup_urls ["-rw-r--r-- 123 GUTINDEX.ALL", "-rw-r--r-- 123 old/foo.txt"] [] =
      .ok ["GUTINDEX.ALL", "old/foo.txt"] ∧
    strStarts "old/foo.txt" "old/" = true :=
  ⟨rfl, rfl⟩

/-- C7 amended: ingestion skips exactly the directory lines (leading `d`)
and the lines containing the substring `/old/`: dropping those lines from
the input does not change the ingested index. A path under a top-level
`old/` directory is not excluded, since its line need not contain
`/old/`. -/
theorem ingest_skips_dirs_and_old (books : List Nat) (start : Nat)
    (lines : List String) :
    ingestLines books start lines =
      ingestLines books start (lines.filter
        (fun l => !(strStarts l "d") && !(strContains l "/old/"))) := by
  induction lines with
  | nil => rfl
  | cons l rest ih =>
    by_cases h1 : strStarts l "d" = true
    · have hp : (!(strStarts l "d") && !(strContains l "/old/")) = false := by
        rw [h1]; rfl
      rw [List.filter_cons, if_neg (by simp [hp])]
      unfold ingestLines
      rw [List.filterMap_cons, if_pos h1]
      exact ih
    · have h1f : strStarts l "d" = false := Bool.eq_false_iff.mpr h1
      by_cases h2 : strContains l "/old/" = true
      · have hp : (!(strStarts l "d") && !(strContains l "/old/")) = false := by
          rw [h2]; simp
        rw [List.filter_cons, if_neg (by simp [hp])]
        unfold ingestLines
        rw [List.filterMap_cons, if_neg h1, if_pos h2]
        exact ih
      · have h2f : strContains l "/old/" = false := Bool.eq_false_iff.mpr h2
        have hp : (!(strStarts l "d") && !(strContains l "/old/")) = true := by
          rw [h1f, h2f]; rfl
        rw [List.filter_cons, if_pos (by simp [hp])]
        unfold ingestLines
        rw [List.filterMap_cons, List.filterMap_cons]
        rw [if_neg h1, if_neg h2]
        unfold ingestLines at ih
        by_cases h3 : (!books.isEmpty &&
            !(books.any (fun b => strContains l ("/" ++ Nat.repr b ++ "/")))) = true
        · rw [if_pos h3]
          exact ih
        · rw [if_neg h3]
          rw [ih]

/-! ## C8: the path-root marker -/

/-- C8 counterexample: on an empty listing the marker-search loop never
runs, so `start_rel_path_idx` is unbound and line 253 raises a bare
`NameError` — an abort, but without the listing-format diagnostic the
claim promises. -/
theorem setup_urls_empty_name_error : setup_urls [] [] = .error .nameError := rfl

theorem strFind_cases (s pat : String) :
    (strContains s pat = true ∧ 0 ≤ strFind s pat) ∨
    (strContains s pat = false ∧ strFind s pat = -1) := by
  unfold strFind strContains
  cases findSubAux pat.toList s.toList 0 with
  | none => right; exact ⟨rfl, rfl⟩
  | some i => left; exact ⟨rfl, Int.natCast_nonneg i⟩

theorem markerIdx_no_marker (lines : List String)
    (h : ∀ l ∈ lines, strContains l "GUTINDEX" = false) (hne : lines ≠ []) :
    markerIdx lines = some (-1) := by
  induction lines with
  | nil => exact absurd rfl hne
  | cons l rest ih =>
    have h1 := h l (List.mem_cons_self _ _)
    have hf : strFind l "GUTINDEX" = -1 := by
      rcases strFind_cases l "GUTINDEX" with ⟨hc, _⟩ | ⟨_, hf⟩
      · rw [h1] at hc; cases hc
      · exact hf
    cases rest with
    | nil => simp [markerIdx, hf]
    | cons l2 rest2 =>
      show (if 0 ≤ strFind l "GUTINDEX" then some (strFind l "GUTINDEX")
            else markerIdx (l2 :: rest2)) = some (-1)
      rw [if_neg (by rw [hf]; decide)]
      exact ih (fun l' hl' => h l' (List.mem_cons_of_mem _ hl')) (List.cons_ne_nil _ _)

theorem markerIdx_finds (lines : List String)
    (h : ∃ l ∈ lines, strContains l "GUTINDEX" = true) :
    ∃ i : Int, markerIdx lines = some i ∧ 0 ≤ i := by
  induction lines with
  | nil =>
    rcases h with ⟨l, hl, _⟩
    exact absurd hl (List.not_mem_nil l)
  | cons l rest ih =>
    cases rest with
    | nil =>
      rcases h with ⟨l', hl', hc⟩
      have he : l' = l := by simpa using hl'
      subst he
      rcases strFind_cases l' "GUTINDEX" with ⟨_, hge⟩ | ⟨hcf, _⟩
      · exact ⟨strFind l' "GUTINDEX", rfl, hge⟩
      · rw [hc] at hcf; cases hcf
    | cons l2 rest2 =>
      by_cases hl : 0 ≤ strFind l "GUTINDEX"
      · refine ⟨strFind l "GUTINDEX", ?_, hl⟩
        show (if 0 ≤ strFind l "GUTINDEX" then some (strFind l "GUTINDEX")
              else markerIdx (l2 :: rest2)) = _
        rw [if_pos hl]
      · have hrest : ∃ l' ∈ l2 :: rest2, strContains l' "GUTINDEX" = true := by
          rcases h with ⟨l', hl', hc⟩
          rcases List.mem_cons.mp hl' with he | hm
          · subst he
            rcases strFind_cases l' "GUTINDEX" with ⟨_, hge⟩ | ⟨hcf, _⟩
            · exact absurd hge hl
            · rw [hc] at hcf; cases hcf
          · exact ⟨l', hm, hc⟩
        rcases ih hrest with ⟨i, hi, hge⟩
        refine ⟨i, ?_, hge⟩
        show (if 0 ≤ strFind l "GUTINDEX" then some (strFind l "GUTINDEX")
              else markerIdx (l2 :: rest2)) = _
        rw [if_neg hl]
        exact hi

/-- C8 amended: when no line contains the `GUTINDEX` marker, `setup_urls`
aborts having added nothing — with the diagnostic `ValueError` on any
nonempty listing, but with a bare `NameError` on an empty one — and when
some line contains the marker, ingestion proceeds without either error. -/
theorem setup_urls_marker (lines : List String) (books : List Nat) :
    ((∀ l ∈ lines, strContains l "GUTINDEX" = false) → lines ≠ [] →
      setup_urls lines books =
        .error (.valueError "Unable to find relative path start in urls file")) ∧
    (lines = [] → setup_urls lines books = .error .nameError) ∧
    ((∃ l ∈ lines, strContains l "GUTINDEX" = true) →
      Except.isOk (setup_urls lines books) = true) := by
  refine ⟨?_, ?_, ?_⟩
  · intro h hne
    unfold setup_urls
    rw [markerIdx_no_marker lines h hne]
    rfl
  · intro he
    subst he
    rfl
  · intro h
    rcases markerIdx_finds lines h with ⟨i, hi, hge⟩
    unfold setup_urls
    rw [hi]
    show (if i = -1 then
            (Except.error (IngestErr.valueError
              "Unable to find relative path start in urls file") :
              Except IngestErr (List String))
          else Except.ok (ingestLines books i.toNat lines)).isOk = true
    rw [if_neg (by omega)]
    rfl

/-- Witness for `setup_urls_marker`: a marker-free nonempty listing gets
the diagnostic, a listing with the marker ingests successfully. -/
theorem setup_urls_marker_witness :
    setup_urls ["no marker here"] [] =
      .error (.valueError "Unable to find relative path start in urls file") ∧
    Except.isOk (setup_urls ["-rw-r--r-- 123 GUTINDEX.ALL"] []) = true :=
  ⟨(setup_urls_marker ["no marker here"] []).1 (by decide) (by decide),
   (setup_urls_marker ["-rw-r--r-- 123 GUTINDEX.ALL"] []).2.2
     ⟨"-rw-r--r-- 123 GUTINDEX.ALL", by decide, by decide⟩⟩

/-! ## C3 and C6: the html generator -/

theorem indexOfSubstringAux_html :
    ∀ (files : List FileEntry) (i : Nat),
      indexOfSubstringAux ["html", "htm"] files i = -1 := by
  intro files
  induction files with
  | nil => intro i; rfl
  | cons f rest ih =>
    intro i
    unfold indexOfSubstringAux
    rw [if_neg (fun hx => nomatch hx)]
    exact ih (i + 1)

/-- The substrings `html` and `htm` are compared against the dict keys
`name` and `id`, never matching: the search always reports `-1`. -/
theorem index_of_substring_html (files : List FileEntry) :
    index_of_substring files ["html", "htm"] = -1 :=
  indexOfSubstringAux_html files 0

/-- Python `files[-1]` on a nonempty list is its last element. -/
theorem pyGet_neg_one {α : Type} (a : α) (l : List α) :
    pyGet (a :: l) (-1) = (a :: l).getLast? := by
  have hj : ((((a :: l).length : Int) + (-1))).toNat = l.length := by
    simp [List.length_cons]
  have hcond : (0 : Int) ≤ ((a :: l).length : Int) + (-1) ∧
      ((a :: l).length : Int) + (-1) < ((a :: l).length : Int) := by
    simp only [List.length_cons]
    push_cast
    omega
  simp only [pyGet]
  rw [if_pos (by decide : (-1 : Int) < 0), if_pos hcond, hj]
  rw [List.getLast?_eq_get?]
  simp [List.length_cons]

/-- Evaluated form of `build_html` on a nonempty file list: the direct
candidates appear exactly under the literal-membership condition, the
four fixed-name candidates always appear, and the sixteen etext-year
candidates reuse the name of the last file dict (`files[-1]`). -/
theorem build_html_eq (f0 : FileEntry) (rest : List FileEntry) :
    build_html (f0 :: rest) =
      some (pySet
        ((if !(((f0 :: rest).map (fun f => f.name)).contains "-h.html") &&
             ((f0 :: rest).map (fun f => f.name)).contains "-h.zip"
          then (f0 :: rest).map (fun f => (buildBaseOne f0.id).join f.name)
          else []) ++
         [(buildBaseOne f0.id).join (Nat.repr f0.id ++ "-h.zip"),
          (buildBaseOne f0.id).join (Nat.repr f0.id ++ "-h.htm"),
          (buildBaseOne f0.id).join (Nat.repr f0.id ++ "-h.html"),
          (buildBaseTwo f0.id).join ("pg" ++ Nat.repr f0.id ++ ".html.utf8")] ++
         etextNames.map (fun y => mkPath [BASE_THREE, y,
           ((f0 :: rest).getLast (List.cons_ne_nil f0 rest)).name]))) := by
  simp only [build_html]
  rw [index_of_substring_html, pyGet_neg_one,
      List.getLast?_eq_getLast_of_ne_nil (List.cons_ne_nil f0 rest)]

/-- C3 counterexample: a book (id 96) whose only known file name,
`story.txt`, has no html/htm-looking substring; `build_html` does not
fail — it succeeds and reuses `story.txt` for the etext-archive
candidates — so no `NoHtmlCandidateError` exists for the resolver to
catch. -/
theorem build_html_no_html_name_succeeds :
    (build_html [⟨"story.txt", 96⟩]).isSome = true ∧
    (((build_html [⟨"story.txt", 96⟩]).getD []).map PurePath.toStr).contains
      "http:/aleph.pglaf.org/etext/90/story.txt" = true := by
  constructor
  · rfl
  · decide

/-- C3 amended: `index_of_substring` tests its substrings against the
per-file dicts, whose keys are `name` and `id`, so it returns `-1` on
every input; `build_html` then reads `files[-1]` — the last known file —
never raises any error on a nonempty input, and reuses that file's name
for the etext-year candidates. -/
theorem build_html_never_raises (f0 : FileEntry) (rest : List FileEntry) :
    index_of_substring (f0 :: rest) ["html", "htm"] = -1 ∧
    (build_html (f0 :: rest)).isSome = true ∧
    mkPath [BASE_THREE, "90",
        ((f0 :: rest).getLast (List.cons_ne_nil f0 rest)).name]
      ∈ (build_html (f0 :: rest)).getD [] := by
  refine ⟨index_of_substring_html _, ?_, ?_⟩
  · rw [build_html_eq]
    rfl
  · rw [build_html_eq]
    show _ ∈ (some _).getD []
    rw [Option.getD_some]
    rw [mem_pySet_iff]
    refine List.mem_append.mpr (Or.inr ?_)
    exact List.mem_map.mpr ⟨"90", by decide, rfl⟩

/-- C6. `build_html` emits one direct candidate under the sharded base
for every known file name exactly when the literal name `-h.html` is
absent from the known file names and the literal name `-h.zip` is
present; when that condition fails, the result consists of the fixed-name
and etext-year candidates only. -/
theorem build_html_direct_condition (f0 : FileEntry) (rest : List FileEntry) :
    (((((f0 :: rest).map (fun f => f.name)).contains "-h.html" = false) ∧
      (((f0 :: rest).map (fun f => f.name)).contains "-h.zip" = true)) →
      ∀ f ∈ f0 :: rest,
        (buildBaseOne f0.id).join f.name ∈ (build_html (f0 :: rest)).getD []) ∧
    (((((f0 :: rest).map (fun f => f.name)).contains "-h.html" = true) ∨
      (((f0 :: rest).map (fun f => f.name)).contains "-h.zip" = false)) →
      (build_html (f0 :: rest)).getD [] =
        pySet ([(buildBaseOne f0.id).join (Nat.repr f0.id ++ "-h.zip"),
                (buildBaseOne f0.id).join (Nat.repr f0.id ++ "-h.htm"),
                (buildBaseOne f0.id).join (Nat.repr f0.id ++ "-h.html"),
                (buildBaseTwo f0.id).join ("pg" ++ Nat.repr f0.id ++ ".html.utf8")] ++
               etextNames.map (fun y => mkPath [BASE_THREE, y,
                 ((f0 :: rest).getLast (List.cons_ne_nil f0 rest)).name]))) := by
  constructor
  · rintro ⟨h1, h2⟩ f hf
    rw [build_html_eq]
    show _ ∈ (some _).getD []
    rw [Option.getD_some]
    rw [mem_pySet_iff]
    refine List.mem_append.mpr (Or.inl (List.mem_append.mpr (Or.inl ?_)))
    rw [if_pos (by rw [h1, h2]; rfl)]
    exact List.mem_map.mpr ⟨f, hf, rfl⟩
  · intro h
    rw [build_html_eq]
    show (some _).getD [] = _
    rw [Option.getD_some]
    have hc : (!(((f0 :: rest).map (fun f => f.name)).contains "-h.html") &&
        ((f0 :: rest).map (fun f => f.name)).contains "-h.zip") = false := by
      rcases h with h | h
      · rw [h]; rfl
      · rw [h]; simp
    rw [if_neg (by rw [hc]; simp)]
    rfl

/-- Witness for `build_html_direct_condition`: a book whose single known
file name is literally `-h.zip` satisfies the condition and receives a
direct candidate; a book with name `story.txt` fails it and resolves to
the fixed and etext candidates only. -/
theorem build_html_direct_condition_witness :
    (buildBaseOne 5).join "-h.zip" ∈ (build_html [⟨"-h.zip", 5⟩]).getD [] ∧
    (build_html [⟨"story.txt", 96⟩]).getD [] =
      pySet ([(buildBaseOne 96).join (Nat.repr 96 ++ "-h.zip"),
              (buildBaseOne 96).join (Nat.repr 96 ++ "-h.htm"),
              (buildBaseOne 96).join (Nat.repr 96 ++ "-h.html"),
              (buildBaseTwo 96).join ("pg" ++ Nat.repr 96 ++ ".html.utf8")] ++
             etextNames.map (fun y => mkPath [BASE_THREE, y, "story.txt"])) :=
  ⟨(build_html_direct_condition ⟨"-h.zip", 5⟩ []).1 ⟨by decide, by decide⟩
      ⟨"-h.zip", 5⟩ (List.mem_cons_self _ _),
   (build_html_direct_condition ⟨"story.txt", 96⟩ []).2 (Or.inr (by decide))⟩

/-! ## C10: the shape of every generated url -/

theorem repr_head_strStarts_slash (n : Nat) (b : String) :
    strStarts (Nat.repr n ++ b) "/" = false := by
  cases hl : (Nat.repr n).toList with
  | nil => exact absurd hl (repr_toList_ne_nil n)
  | cons c cs =>
    have hc : c ≠ '/' := isDigit_ne_slash
      (repr_toList_digits n c (by rw [hl]; exact List.mem_cons_self _ _))
    refine strStarts_slash_of_head (r := cs ++ b.toList) ?_ hc
    rw [toList_append, hl]
    rfl

theorem etextNames_no_slash : ∀ y ∈ etextNames, strStarts y "/" = false := by
  decide

theorem goodBase_etext {y name : String} (hy : strStarts y "/" = false)
    (hname : strStarts name "/" = false) :
    goodBase (mkPath [BASE_THREE, y, name]) := by
  unfold mkPath
  rw [List.foldl_cons, List.foldl_cons, List.foldl_cons, List.foldl_nil]
  exact goodBase_join (goodBase_join ⟨rfl, ["etext"], rfl⟩ hy) hname

/-- C10. Every url produced by the three candidate generators begins with
`http:/aleph.pglaf.org` — exactly one slash after the scheme, never
`http://` — because the configured base urls are joined to path segments
through pathlib `Path` values, which collapse consecutive slashes. Known
file names are assumed not to begin with `/` (an absolute operand would
reset a pathlib join). -/
theorem generator_urls_single_slash (f0 : FileEntry) (rest : List FileEntry)
    (hn : ∀ f ∈ f0 :: rest, strStarts f.name "/" = false) :
    (∀ p ∈ (build_epub (f0 :: rest)).getD [],
      strStarts p.toStr "http:/aleph.pglaf.org" = true ∧
      strStarts p.toStr "http://" = false) ∧
    (∀ p ∈ (build_pdf (f0 :: rest)).getD [],
      strStarts p.toStr "http:/aleph.pglaf.org" = true ∧
      strStarts p.toStr "http://" = false) ∧
    (∀ p ∈ (build_html (f0 :: rest)).getD [],
      strStarts p.toStr "http:/aleph.pglaf.org" = true ∧
      strStarts p.toStr "http://" = false) := by
  refine ⟨?_, ?_, ?_⟩
  · intro p hp
    have hp' : p ∈ [(buildBaseTwo f0.id).join ("pg" ++ Nat.repr f0.id ++ ".epub"),
        (buildBaseTwo f0.id).join ("pg" ++ Nat.repr f0.id ++ "-images.epub"),
        (buildBaseTwo f0.id).join ("pg" ++ Nat.repr f0.id ++ "-noimages.epub")] := hp
    apply goodBase_toStr
    simp only [List.mem_cons, List.not_mem_nil, or_false] at hp'
    rcases hp' with h | h | h <;> subst h <;>
      exact goodBase_join (goodBase_buildBaseTwo f0.id) (pg_strStarts_slash _ _)
  · intro p hp
    have hp' : p ∈ pySet ((((f0 :: rest).filter
        (fun f => !(strContains f.name "images"))).map
          (fun f => (buildBaseTwo f0.id).join f.name)) ++
        [(buildBaseTwo f0.id).join (Nat.repr f0.id ++ "-pdf.pdf"),
         (buildBaseTwo f0.id).join (Nat.repr f0.id ++ ".pdf"),
         (buildBaseTwo f0.id).join ("pg" ++ Nat.repr f0.id ++ ".pdf"),
         (buildBaseOne f0.id).join (Nat.repr f0.id ++ "-pdf.pdf")]) := hp
    rw [mem_pySet_iff] at hp'
    apply goodBase_toStr
    rcases List.mem_append.mp hp' with h | h
    · rcases List.mem_map.mp h with ⟨f, hf, he⟩
      subst he
      exact goodBase_join (goodBase_buildBaseTwo f0.id)
        (hn f (List.mem_of_mem_filter hf))
    · simp only [List.mem_cons, List.not_mem_nil, or_false] at h
      rcases h with h | h | h | h <;> subst h
      · exact goodBase_join (goodBase_buildBaseTwo f0.id) (repr_head_strStarts_slash _ _)
      · exact goodBase_join (goodBase_buildBaseTwo f0.id) (repr_head_strStarts_slash _ _)
      · exact goodBase_join (goodBase_buildBaseTwo f0.id) (pg_strStarts_slash _ _)
      · exact goodBase_join (goodBase_buildBaseOne f0.id) (repr_head_strStarts_slash _ _)
  · intro p hp
    rw [build_html_eq] at hp
    rw [Option.getD_some, mem_pySet_iff] at hp
    apply goodBase_toStr
    rcases List.mem_append.mp hp with h | h
    · rcases List.mem_append.mp h with h' | h'
      · split at h'
        · rcases List.mem_map.mp h' with ⟨f, hf, he⟩
          subst he
          exact goodBase_join (goodBase_buildBaseOne f0.id) (hn f hf)
        · exact absurd h' (List.not_mem_nil p)
      · simp only [List.mem_cons, List.not_mem_nil, or_false] at h'
        rcases h' with h' | h' | h' | h' <;> subst h'
        · exact goodBase_join (goodBase_buildBaseOne f0.id) (repr_head_strStarts_slash _ _)
        · exact goodBase_join (goodBase_buildBaseOne f0.id) (repr_head_strStarts_slash _ _)
        · exact goodBase_join (goodBase_buildBaseOne f0.id) (repr_head_strStarts_slash _ _)
        · exact goodBase_join (goodBase_buildBaseTwo f0.id) (pg_strStarts_slash _ _)
    · rcases List.mem_map.mp h with ⟨y, hy, he⟩
      subst he
      exact goodBase_etext (etextNames_no_slash y hy) (hn _ (List.getLast_mem _))

/-- Witness for `generator_urls_single_slash`: the first epub candidate
of book 10023. -/
theorem generator_urls_single_slash_witness :
    strStarts (PurePath.toStr ⟨false, ["http:", "aleph.pglaf.org", "cache", "epub",
      "10023", "pg10023.epub"]⟩) "http:/aleph.pglaf.org" = true ∧
    strStarts (PurePath.toStr ⟨false, ["http:", "aleph.pglaf.org", "cache", "epub",
      "10023", "pg10023.epub"]⟩) "http://" = false :=
  (generator_urls_single_slash ⟨"x.pdf", 10023⟩ [] (by decide)).1
    ⟨false, ["http:", "aleph.pglaf.org", "cache", "epub", "10023", "pg10023.epub"]⟩
    (by decide)

end Gutenberg
